import Mathlib

/-!
# img-upgr: verification of the update-resolution core

A shallow embedding of the update checker of the `img-upgr` repository
(`pkg/update/checker.go`, `pkg/docker` tag fetching, `pkg/config`
validation, and the merge-request workflows of the `cmd` package),
together with proofs about its behaviour.

Go strings are modelled as lists of characters (`Str`).  The Masterminds
`semver/v3` library functions used by the checker (`NewVersion`,
`Version.String`, `Version.Compare`, `Version.GreaterThan`) are embedded
from that library's source, since the checker's behaviour is inseparable
from them.
-/

namespace ImgUpgr

/-- Go strings, modelled as lists of characters. -/
abbrev Str := List Char

/-! ## Decimal rendering of naturals (Go `%d` / `strconv`)

`natToStrCore` mirrors the usual digit-peeling loop with a fuel argument
(structural recursion, so that the kernel can evaluate it). -/

/-- The decimal digit character for `d % 10`-style values. -/
def digitChar10 (d : Nat) : Char :=
  if d = 0 then '0' else if d = 1 then '1' else if d = 2 then '2'
  else if d = 3 then '3' else if d = 4 then '4' else if d = 5 then '5'
  else if d = 6 then '6' else if d = 7 then '7' else if d = 8 then '8' else '9'

/-- Digit-peeling loop: prepends the decimal digits of `n` to `acc`. -/
def natToStrCore : Nat → Nat → Str → Str
  | 0, _, acc => acc
  | fuel + 1, n, acc =>
    let d := digitChar10 (n % 10)
    if n / 10 = 0 then d :: acc else natToStrCore fuel (n / 10) (d :: acc)

/-- Decimal rendering of a natural number (Go `fmt` `%d`). -/
def natToStr (n : Nat) : Str := natToStrCore (n + 1) n []

/-- Numeric value of a list of decimal digit characters
(Go `strconv.ParseUint` on the digits, before the range check). -/
def digitsVal (ds : Str) : Nat := ds.foldl (fun a c => 10 * a + (c.toNat - 48)) 0

/-! ## The Masterminds `semver/v3` lenient grammar

`NewVersion` matches
`^v?([0-9]+)(\.[0-9]+)?(\.[0-9]+)?(-([0-9A-Za-z-]+(\.[0-9A-Za-z-]+)*))?(\+([0-9A-Za-z-]+(\.[0-9A-Za-z-]+)*))?$`
and converts each numeric group with `strconv.ParseUint (..., 64)`;
missing minor/patch groups default to `0`. -/

/-- A character of a pre-release / build-metadata identifier: `[0-9A-Za-z-]`. -/
def isIdentCh (c : Char) : Bool :=
  c.isDigit || ('A' ≤ c && c ≤ 'Z') || ('a' ≤ c && c ≤ 'z') || c = '-'

/-- Greedily consumes `(\.[0-9A-Za-z-]+)*` (fuelled; each step eats ≥ 2 chars). -/
def dotChunksCore : Nat → Str → Str × Str
  | 0, s => ([], s)
  | fuel + 1, s =>
    match s with
    | '.' :: rest =>
      let ds := rest.takeWhile isIdentCh
      if ds.isEmpty then ([], s)
      else
        let (m, r) := dotChunksCore fuel (rest.dropWhile isIdentCh)
        ('.' :: (ds ++ m), r)
    | _ => ([], s)

/-- Parses `[0-9A-Za-z-]+(\.[0-9A-Za-z-]+)*` at the head, greedily. -/
def identSeq (s : Str) : Option (Str × Str) :=
  let c1 := s.takeWhile isIdentCh
  if c1.isEmpty then none
  else
    let (m, r) := dotChunksCore s.length (s.dropWhile isIdentCh)
    some (c1 ++ m, r)

/-- Parses an optional `\.[0-9]+` group; returns the digits (if the group
matched) and the remaining input. -/
def dotNum : Str → Option Str × Str
  | '.' :: c :: rest =>
    if c.isDigit then
      (some ((c :: rest).takeWhile Char.isDigit), (c :: rest).dropWhile Char.isDigit)
    else (none, '.' :: c :: rest)
  | s => (none, s)

/-- `strconv.ParseUint` rejects values that do not fit in 64 bits. -/
def uintMax : Nat := 2 ^ 64

/-- A parsed Masterminds semantic version: the fields `NewVersion` stores. -/
structure SemVer where
  major : Nat
  minor : Nat
  patch : Nat
  pre : Str
  meta : Str
deriving DecidableEq, Repr

/-- The optional leading `v` of the version regex. -/
def stripV (s : Str) : Str := if s.head? = some 'v' then s.tail else s

/-- Masterminds `semver.NewVersion` (the lenient parser used by the checker). -/
def newVersion (s : Str) : Option SemVer :=
  let s0 := stripV s
  let d1 := s0.takeWhile Char.isDigit
  if d1.isEmpty then none
  else
    let r1 := s0.dropWhile Char.isDigit
    let (d2, r2) := dotNum r1
    let (d3, r3) := dotNum r2
    let preParsed : Option (Str × Str) :=
      match r3 with
      | '-' :: t =>
        match identSeq t with
        | some (m, r) => some (m, r)
        | none => none
      | _ => some ([], r3)
    match preParsed with
    | none => none
    | some (preStr, r4) =>
      let metaParsed : Option (Str × Str) :=
        match r4 with
        | '+' :: t =>
          match identSeq t with
          | some (m, r) => some (m, r)
          | none => none
        | _ => some ([], r4)
      match metaParsed with
      | none => none
      | some (metaStr, r5) =>
        if r5.isEmpty then
          let major := digitsVal d1
          let minor := digitsVal (d2.getD [])
          let patch := digitsVal (d3.getD [])
          if major < uintMax && minor < uintMax && patch < uintMax then
            some { major, minor, patch, pre := preStr, meta := metaStr }
          else none
        else none

/-- Masterminds `Version.String`: `"%d.%d.%d"` plus optional `-pre` and `+meta`. -/
def SemVer.toStr (v : SemVer) : Str :=
  natToStr v.major ++ '.' :: natToStr v.minor ++ '.' :: natToStr v.patch
    ++ (if v.pre.isEmpty then [] else '-' :: v.pre)
    ++ (if v.meta.isEmpty then [] else '+' :: v.meta)

/-! ### Version comparison (Masterminds `Version.Compare`) -/

/-- `compareSegment`. -/
def compareSeg (a b : Nat) : Int := if a < b then -1 else if b < a then 1 else 0

/-- Go lexicographic (byte-wise) string comparison `s < o`. -/
def strLt : Str → Str → Bool
  | [], [] => false
  | [], _ :: _ => true
  | _ :: _, [] => false
  | a :: as, b :: bs => if a < b then true else if b < a then false else strLt as bs

/-- `strconv.ParseInt(s, 10, 64)`: optional sign, then decimal digits,
within the signed 64-bit range. -/
def parseInt64 (s : Str) : Option Int :=
  match s with
  | [] => none
  | '-' :: t =>
    if !t.isEmpty && t.all Char.isDigit && digitsVal t ≤ 2 ^ 63 then
      some (-(digitsVal t : Int))
    else none
  | '+' :: t =>
    if !t.isEmpty && t.all Char.isDigit && digitsVal t < 2 ^ 63 then
      some ((digitsVal t : Int))
    else none
  | t =>
    if t.all Char.isDigit && digitsVal t < 2 ^ 63 then
      some ((digitsVal t : Int))
    else none

/-- Masterminds `comparePrePart`: numeric identifiers order below
alphanumeric ones; two non-numeric parts compare lexicographically. -/
def comparePrePart (s o : Str) : Int :=
  if s = o then 0
  else if s = [] then (if o ≠ [] then -1 else 1)
  else if o = [] then (if s ≠ [] then 1 else -1)
  else
    match parseInt64 o, parseInt64 s with
    | none, none => if strLt o s then 1 else -1
    | none, some _ => -1
    | some _, none => 1
    | some oi, some si => if oi < si then 1 else -1

/-- Masterminds `comparePrerelease`: dot-separated parts compared
pointwise, the shorter side padded with empty parts. -/
def comparePreLoop : List Str → List Str → Int
  | [], [] => 0
  | [], o :: os =>
    let d := comparePrePart [] o
    if d ≠ 0 then d else comparePreLoop [] os
  | s :: ss, [] =>
    let d := comparePrePart s []
    if d ≠ 0 then d else comparePreLoop ss []
  | s :: ss, o :: os =>
    let d := comparePrePart s o
    if d ≠ 0 then d else comparePreLoop ss os

/-- Masterminds `Version.Compare` (build metadata is ignored). -/
def SemVer.compare (v o : SemVer) : Int :=
  let d1 := compareSeg v.major o.major
  if d1 ≠ 0 then d1 else
  let d2 := compareSeg v.minor o.minor
  if d2 ≠ 0 then d2 else
  let d3 := compareSeg v.patch o.patch
  if d3 ≠ 0 then d3 else
  if v.pre.isEmpty && o.pre.isEmpty then 0
  else if v.pre.isEmpty then 1
  else if o.pre.isEmpty then -1
  else comparePreLoop (v.pre.splitOn '.') (o.pre.splitOn '.')

/-- Masterminds `Version.GreaterThan`. -/
def SemVer.greaterThan (v o : SemVer) : Bool := 0 < v.compare o

/-! ## `pkg/update/checker.go` -/

/-- `parseImageString`, i.e. matching `ImageTagPattern = ^([^:]+):(.+)$` with
Go RE2 semantics: `[^:]` matches any character but `:` (newline included),
`.` matches any character but newline, and `^`/`$` anchor at the ends of
the text.  The separator is therefore the *first* colon. -/
def parseImageString (image : Str) : Option (Str × Str) :=
  let before := image.takeWhile (fun c => c ≠ ':')
  match image.dropWhile (fun c => c ≠ ':') with
  | ':' :: after =>
    if !before.isEmpty && !after.isEmpty && after.all (fun c => c ≠ '\n') then
      some (before, after)
    else none
  | _ => none

/-- Automaton for matching `\d+\.\d+\.\d+` exactly: `dotsLeft` counts the
separators still to come and `needDigit` records that the current digit
run is still empty. -/
def tripleAux : Str → Nat → Bool → Bool
  | [], dotsLeft, needDigit => dotsLeft == 0 && !needDigit
  | c :: cs, dotsLeft, needDigit =>
    if c.isDigit then tripleAux cs dotsLeft false
    else if c = '.' then
      match dotsLeft with
      | 0 => false
      | n + 1 => if needDigit then false else tripleAux cs n true
    else false

/-- Does `s` match `\d+\.\d+\.\d+` exactly? -/
def isTriple (s : Str) : Bool := tripleAux s 2 true

/-- Scanning loop of `SemverTagPattern = ^(.*?)(\d+\.\d+\.\d+)$`: the lazy
`.*?` yields the *shortest* prefix whose remainder matches the trailing
triplet exactly; `.` does not match a newline, so the scan stops at one. -/
def extractAux : Str → Str → Option (Str × Str)
  | acc, rest =>
    if isTriple rest then some (acc.reverse, rest)
    else
      match rest with
      | [] => none
      | c :: cs => if c = '\n' then none else extractAux (c :: acc) cs

/-- `extractVersionFromTag`: splits a tag into prefix and trailing
`major.minor.patch` string via `SemverTagPattern`. -/
def extractVersionFromTag (tag : Str) : Option (Str × Str) :=
  extractAux [] tag

/-- `VersionInfo`: a tag together with its parsed semantic version. -/
structure VersionInfo where
  fullTag : Str
  version : SemVer
deriving DecidableEq, Repr

/-- `findMatchingVersions`: keeps every tag that has the prefix (Go
`strings.HasPrefix`) and whose remainder after `strings.TrimPrefix`
parses under `semver.NewVersion`, in fetch order. -/
def findMatchingVersions (tags : List Str) (pfx : Str) : List VersionInfo :=
  tags.filterMap fun tag =>
    if pfx.isPrefixOf tag then
      match newVersion (tag.drop pfx.length) with
      | some v => some { fullTag := tag, version := v }
      | none => none
    else none

/-- `findLatestVersion` (pure part, the tag list already fetched): Go sorts
the matches descending by `GreaterThan` with an unstable sort and returns
the element at index 0, i.e. some maximal element; ties under `Compare`
are broken arbitrarily there.  The embedding returns the first maximal
element; every property proved below depends only on how the returned
version compares, which is the same for all tied elements. -/
def findLatestVersion (tags : List Str) (pfx : Str) : Option VersionInfo :=
  match findMatchingVersions tags pfx with
  | [] => none
  | m :: ms =>
    some (ms.foldl (fun best v => if v.version.greaterThan best.version then v else best) m)

/-- The error cases of `CheckImage`. -/
inductive CheckError
  | noTagFound
  | tagNotSemverLike
  | invalidVersion
deriving DecidableEq, Repr

/-- `ImageInfo`.  `latestTag` keeps Go's zero value `""` when no candidate
matched; `latestVersion` models the possibly-nil pointer. -/
structure ImageInfo where
  repository : Str
  tag : Str
  pfx : Str
  version : SemVer
  latestTag : Str
  latestVersion : Option SemVer
  hasUpdate : Bool
deriving DecidableEq, Repr

/-- `CheckImage` (pure part: the registry's tag list is passed in, where Go
fetches it via the Docker client; a fetch error aborts before any of the
logic modelled here). -/
def checkImage (image : Str) (tags : List Str) : Except CheckError ImageInfo :=
  match parseImageString image with
  | none => .error .noTagFound
  | some (repo, tag) =>
    match extractVersionFromTag tag with
    | none => .error .tagNotSemverLike
    | some (pfx, versionStr) =>
      match newVersion versionStr with
      | none => .error .invalidVersion
      | some currentVer =>
        match findLatestVersion tags pfx with
        | none =>
          .ok { repository := repo, tag := tag, pfx := pfx, version := currentVer,
                latestTag := [], latestVersion := none, hasUpdate := false }
        | some latest =>
          .ok { repository := repo, tag := tag, pfx := pfx, version := currentVer,
                latestTag := latest.fullTag, latestVersion := some latest.version,
                hasUpdate := latest.version.greaterThan currentVer }

/-! ## `pkg/docker`: repository names and tag fetching -/

/-- `RepositoryInfo` (`Namespace` is a Lean keyword, hence `nameSpace`). -/
structure RepositoryInfo where
  nameSpace : Str
  name : Str
  fullName : Str
deriving DecidableEq, Repr

/-- The tag-stripping step of `ParseRepositoryName`:
`if idx := strings.Index(repo, ":"); idx > 0 { repo = repo[:idx] }`. -/
def stripTag (repo : Str) : Str :=
  let idx := (repo.takeWhile (fun c => c ≠ ':')).length
  if 0 < idx && idx < repo.length then repo.take idx else repo

/-- `ParseRepositoryName`: a bare name is namespaced under `library`;
otherwise namespace and name are the first two `/`-separated segments
(`split[0]` and `split[1]`), while `FullName` keeps the whole string. -/
def parseRepositoryName (repo0 : Str) : RepositoryInfo :=
  let repo := stripTag repo0
  match repo.splitOn '/' with
  | [single] =>
    { nameSpace := "library".toList, name := single,
      fullName := "library/".toList ++ single }
  | parts =>
    { nameSpace := parts.headD [], name := (parts.drop 1).headD [], fullName := repo }

/-- `DefaultPageSize`. -/
def defaultPageSize : Nat := 100

/-- `DockerHubAPIBaseURL`. -/
def dockerHubAPIBaseURL : Str := "https://hub.docker.com/v2/repositories".toList

/-- The first-page URL built by `FetchAllTagsWithContext`:
`fmt.Sprintf("%s/%s/%s/tags?page_size=%d", baseURL, Namespace, Name, pageSize)`. -/
def buildTagsURL (repo : Str) (pageSize : Nat) : Str :=
  let info := parseRepositoryName repo
  dockerHubAPIBaseURL ++ '/' :: info.nameSpace ++ '/' :: info.name
    ++ "/tags?page_size=".toList ++ natToStr pageSize

/-- One decoded registry page (`DockerHubResponse`), together with the HTTP
status the transport returned for it. -/
structure HubResponse where
  results : List Str
  next : Str
  status : Nat
deriving DecidableEq, Repr

/-- Failures of the fetch loop.  `outOfFuel` is a modelling artifact: it
marks runs on which the Go `for` loop would still be iterating. -/
inductive FetchError
  | network
  | http (status : Nat)
  | outOfFuel
deriving DecidableEq, Repr

/-- The pagination loop of `FetchAllTagsWithContext`: follow `next` until it
is empty, appending each page's tag names in response order; any response
whose status is not `http.StatusOK` (200) aborts with that status.  The
registry is abstracted as a map from URLs to responses (`none` = transport
error); cancellation is not modelled. -/
def fetchAllTags (server : Str → Option HubResponse) : Nat → Str → Except FetchError (List Str)
  | 0, url => if url.isEmpty then .ok [] else .error .outOfFuel
  | fuel + 1, url =>
    if url.isEmpty then .ok []
    else
      match server url with
      | none => .error .network
      | some resp =>
        if resp.status ≠ 200 then .error (.http resp.status)
        else
          match fetchAllTags server fuel resp.next with
          | .ok rest => .ok (resp.results ++ rest)
          | .error e => .error e

/-- A page chain as in the claim: consecutive `next` pointers, empty on the
last page, every page served with status 200 at a non-empty URL. -/
def chainOk (server : Str → Option HubResponse) : List (Str × HubResponse) → Prop
  | [] => True
  | (u, p) :: rest =>
    u ≠ [] ∧ server u = some p ∧ p.status = 200 ∧
      (match rest with
       | [] => p.next = []
       | (u2, _) :: _ => p.next = u2) ∧
      chainOk server rest

/-- The concatenation of the pages' tag names, in page order. -/
def concatResults (chain : List (Str × HubResponse)) : List Str :=
  chain.foldr (fun x acc => x.2.results ++ acc) []

/-! ## `pkg/config`: GitLab validation -/

/-- The fields of `Config` that `ValidateGitLab` reads. -/
structure Config where
  createMR : Bool
  gitLabUser : Str
  gitLabToken : Str
  gitLabRepo : Str
  gitLabEmail : Str
deriving DecidableEq, Repr

/-- `validation.ValidationError`. -/
structure ValidationError where
  field : Str
  message : Str
deriving DecidableEq, Repr

/-- `validation.GetMissingVars`: the names whose value is empty.  Go
iterates a map in unspecified order; the embedding fixes the literal's
insertion order (the claims proved below do not depend on the order). -/
def getMissingVars (vars : List (Str × Str)) : List Str :=
  (vars.filter fun nv => nv.2.isEmpty).map fun nv => nv.1

/-- Environment-variable names for the required GitLab settings. -/
def envGitLabUser : Str := "IMG_UPGR_GL_USER".toList
def envGitLabToken : Str := "IMG_UPGR_GL_TOKEN".toList
def envGitLabRepo : Str := "IMG_UPGR_GL_REPO".toList
def envGitLabEmail : Str := "IMG_UPGR_GL_EMAIL".toList

/-- `Config.ValidateGitLab`, returning the accumulated validation errors
(Go returns an error exactly when this list is non-empty).  The repo-URL
check delegates to Go `net/url.Parse` via `validation.ValidateURL`; that
parser is outside this development, so the check is a parameter
`urlErr` (`some message` = invalid URL), and the property proved below
holds for every instantiation of it. -/
def validateGitLab (urlErr : Str → Option Str) (c : Config) : List ValidationError :=
  if c.createMR then
    let missing := getMissingVars
      [(envGitLabUser, c.gitLabUser), (envGitLabToken, c.gitLabToken),
       (envGitLabRepo, c.gitLabRepo), (envGitLabEmail, c.gitLabEmail)]
    let errs1 : List ValidationError :=
      if missing.isEmpty then []
      else [{ field := "GitLab".toList,
              message := "missing required environment variables: ".toList
                ++ (List.intercalate ", ".toList missing) }]
    let errs2 : List ValidationError :=
      match urlErr c.gitLabRepo with
      | some m => [{ field := "GitLabRepo".toList, message := m }]
      | none => []
    errs1 ++ errs2
  else []

/-! ## `cmd`: branch naming and the merge-request workflows -/

/-- Go `strings.ReplaceAll` specialised to single-character old/new
patterns, where it coincides with a character map. -/
def replaceAllCh (s : Str) (a b : Char) : Str :=
  s.map fun c => if c = a then b else c

/-- `sanitizeBranchName` (scan command): replaces `/`, `:` and `.` with `-`. -/
def sanitizeBranchName (name : Str) : Str :=
  replaceAllCh (replaceAllCh (replaceAllCh name '/' '-') ':' '-') '.' '-'

/-- The layout string of the branch timestamp,
`time.Now().Format("20060102-150405")` — second resolution. -/
def branchTimestampFormat : Str := "20060102-150405".toList

/-- `generateBranchName` (scan command); the formatted timestamp is passed
in, where Go reads the clock. -/
def generateBranchName (timestamp serviceName : Str) : Str :=
  "img-upgr/".toList ++ sanitizeBranchName serviceName ++ '-' :: timestamp

/-- The branch name derived inline by `createMergeRequestsForUpdates`
(check command): only `/` is replaced before formatting. -/
def checkCmdBranchName (timestamp serviceName : Str) : Str :=
  "img-upgr/".toList ++ replaceAllCh serviceName '/' '-' ++ '-' :: timestamp

/-- `UpdateInfo` (check command). -/
structure UpdateInfo where
  filePath : Str
  serviceName : Str
  oldImage : Str
  newImage : Str
  repository : Str
  oldTag : Str
  newTag : Str
deriving DecidableEq, Repr

/-- The effectful stages of one iteration of
`createMergeRequestsForUpdates`, in program order. -/
inductive Stage
  | defaultBranch
  | createBranch
  | readFile
  | writeFile
  | commitPush
  | currentBranch
  | defaultBranchAgain
  | newClient
  | createMergeRequest
deriving DecidableEq, Repr

/-- Outcome of one update's processing. -/
inductive StepOutcome
  | created
  | failed (s : Stage)
deriving DecidableEq, Repr

/-- One loop body of `createMergeRequestsForUpdates`: the first failing
stage ends this candidate's processing; the effectful calls are abstracted
as an oracle `ok` telling whether a stage succeeds for a given
candidate. -/
def processOneUpdate (ok : UpdateInfo → Stage → Bool) (u : UpdateInfo) : StepOutcome :=
  if !ok u .defaultBranch then .failed .defaultBranch
  else if !ok u .createBranch then .failed .createBranch
  else if !ok u .readFile then .failed .readFile
  else if !ok u .writeFile then .failed .writeFile
  else if !ok u .commitPush then .failed .commitPush
  else if !ok u .currentBranch then .failed .currentBranch
  else if !ok u .defaultBranchAgain then .failed .defaultBranchAgain
  else if !ok u .newClient then .failed .newClient
  else if !ok u .createMergeRequest then .failed .createMergeRequest
  else .created

/-- The `logger.Error` line `createMergeRequestsForUpdates` (check command)
emits when stage `s` fails for candidate `u`, with `err` the
`%v`-formatted text of the underlying error.  None of these format
strings interpolates the service name; the read/write lines interpolate
the file path. -/
def checkCmdErrorLog (u : UpdateInfo) (s : Stage) (err : Str) : Str :=
  match s with
  | .defaultBranch => "Error getting default branch: ".toList ++ err
  | .createBranch => "Error creating branch: ".toList ++ err
  | .readFile => "Error reading file ".toList ++ u.filePath ++ ": ".toList ++ err
  | .writeFile => "Error writing file ".toList ++ u.filePath ++ ": ".toList ++ err
  | .commitPush => "Error committing changes: ".toList ++ err
  | .currentBranch => "Error getting current branch: ".toList ++ err
  | .defaultBranchAgain => "Error getting default branch: ".toList ++ err
  | .newClient => "Error creating GitLab client: ".toList ++ err
  | .createMergeRequest => "Error creating merge request: ".toList ++ err

/-- The terminal log line of one iteration of the check-command loop: on
failure, the failing stage's `logger.Error` line; on success, the
`"Created merge request successfully for %s"` line (the only line of the
pair that names the service). -/
def checkCmdIterationLog (ok : UpdateInfo → Stage → Bool)
    (errOf : UpdateInfo → Stage → Str) (u : UpdateInfo) : Str :=
  match processOneUpdate ok u with
  | .failed s => checkCmdErrorLog u s (errOf u s)
  | .created => "Created merge request successfully for ".toList ++ u.serviceName

/-- The loop of `createMergeRequestsForUpdates` (check command): every
failure is logged and the loop `continue`s with the next candidate; the
embedding returns the terminal log line of every iteration, in order.
(Context cancellation, the function's only early return, and the
`logger.Info` progress lines are not modelled.) -/
def createMergeRequestsForUpdates (ok : UpdateInfo → Stage → Bool)
    (errOf : UpdateInfo → Stage → Str) : List UpdateInfo → List Str
  | [] => []
  | u :: us =>
    checkCmdIterationLog ok errOf u :: createMergeRequestsForUpdates ok errOf us

/-- `UpdatedImage` (scan command). -/
structure UpdatedImage where
  serviceName : Str
  filePath : Str
  oldImage : Str
  newImage : Str
  repository : Str
  oldTag : Str
  newTag : Str
deriving DecidableEq, Repr

/-- The effectful stages of `createMergeRequestForUpdate` (scan command),
in program order. -/
inductive ScanStage
  | createBranch
  | readFile
  | writeFile
  | commitPush
  | currentBranch
  | clientType
  | createMergeRequest
deriving DecidableEq, Repr

/-- `createMergeRequestForUpdate`: `none` = success, `some s` = the first
failing stage (its error is what `createMergeRequests` logs). -/
def createMergeRequestForUpdate (ok : UpdatedImage → ScanStage → Bool)
    (u : UpdatedImage) : Option ScanStage :=
  if !ok u .createBranch then some .createBranch
  else if !ok u .readFile then some .readFile
  else if !ok u .writeFile then some .writeFile
  else if !ok u .commitPush then some .commitPush
  else if !ok u .currentBranch then some .currentBranch
  else if !ok u .clientType then some .clientType
  else if !ok u .createMergeRequest then some .createMergeRequest
  else none

/-- The `%v` text of the error `createMergeRequestForUpdate` returns when
stage `s` fails with underlying error text `err`: each stage wraps the
cause with `fmt.Errorf("...: %w", err)` (the read/write and
merge-request stages wrap twice, through `updateFileContent` and
`submitMergeRequest`). -/
def scanStageErrText (s : ScanStage) (err : Str) : Str :=
  match s with
  | .createBranch => "failed to create branch: ".toList ++ err
  | .readFile => "failed to update file content: failed to read file: ".toList ++ err
  | .writeFile => "failed to update file content: failed to write file: ".toList ++ err
  | .commitPush => "failed to commit changes: ".toList ++ err
  | .currentBranch =>
    "failed to create merge request: failed to get current branch: ".toList ++ err
  | .clientType => "failed to create merge request: invalid GitLab client type".toList
  | .createMergeRequest =>
    "failed to create merge request: failed to create merge request: ".toList ++ err

/-- The terminal log line of one iteration of the scan-command loop
(`createMergeRequests`): on failure, the
`"Failed to create merge request for %s: %v"` `logger.Error` line — which
does name the service — and on success the
`"Created merge request successfully for %s"` line. -/
def scanCmdIterationLog (ok : UpdatedImage → ScanStage → Bool)
    (errOf : UpdatedImage → ScanStage → Str) (u : UpdatedImage) : Str :=
  match createMergeRequestForUpdate ok u with
  | some s => "Failed to create merge request for ".toList ++ u.serviceName
      ++ ": ".toList ++ scanStageErrText s (errOf u s)
  | none => "Created merge request successfully for ".toList ++ u.serviceName

/-- The loop of `createMergeRequests` (scan command): a failed candidate is
logged (with its service name) and the loop `continue`s; the embedding
returns the terminal log line of every iteration, in order. -/
def createMergeRequests (ok : UpdatedImage → ScanStage → Bool)
    (errOf : UpdatedImage → ScanStage → Str) : List UpdatedImage → List Str
  | [] => []
  | u :: us =>
    scanCmdIterationLog ok errOf u :: createMergeRequests ok errOf us

/-! ## Specification vocabulary and concrete test fixtures -/

/-- The canonical decimal triplet string `"{M}.{m}.{p}"` of the round-trip
law. -/
def canonTriplet (M m p : Nat) : Str :=
  natToStr M ++ '.' :: (natToStr m ++ '.' :: natToStr p)

/-- First registry page of the three-page pagination fixture. -/
def pageA : HubResponse :=
  { results := ["t1".toList, "t2".toList], next := "u2".toList, status := 200 }

/-- Second registry page of the three-page pagination fixture. -/
def pageB : HubResponse :=
  { results := ["t3".toList, "t4".toList], next := "u3".toList, status := 200 }

/-- Last registry page of the three-page pagination fixture. -/
def pageC : HubResponse :=
  { results := ["t5".toList, "t6".toList], next := [], status := 200 }

/-- A registry serving three chained pages of two tags each. -/
def server3 (u : Str) : Option HubResponse :=
  if u = "u1".toList then some pageA
  else if u = "u2".toList then some pageB
  else if u = "u3".toList then some pageC
  else none

/-- The page chain served by `server3`. -/
def chain3 : List (Str × HubResponse) :=
  [("u1".toList, pageA), ("u2".toList, pageB), ("u3".toList, pageC)]

/-- A registry answering one page with HTTP status 201 (a 2xx status). -/
def server201 (u : Str) : Option HubResponse :=
  if u = "u".toList then some { results := [], next := [], status := 201 } else none

/-- A registry answering one page with HTTP status 404. -/
def server404 (u : Str) : Option HubResponse :=
  if u = "u".toList then some { results := [], next := [], status := 404 } else none

/-- Concrete image reference for the update-decision witness. -/
def imageW : Str := "app:1.0.0".toList

/-- Concrete registry tag list for the update-decision witness. -/
def tagsW : List Str := ["1.2.0".toList]

/-- The version `1.2.0`. -/
def verW : SemVer := { major := 1, minor := 2, patch := 0, pre := [], meta := [] }

/-- What `checkImage` returns on `imageW` and `tagsW`. -/
def infoW : ImageInfo :=
  { repository := "app".toList, tag := "1.0.0".toList, pfx := [],
    version := { major := 1, minor := 0, patch := 0, pre := [], meta := [] },
    latestTag := "1.2.0".toList, latestVersion := some verW, hasUpdate := true }

/-- Update candidate for the service `"db"` (failure-isolation scenario). -/
def updateDb : UpdateInfo :=
  { filePath := "docker-compose.yml".toList, serviceName := "db".toList,
    oldImage := "db:1.0.0".toList, newImage := "db:1.1.0".toList,
    repository := "db".toList, oldTag := "1.0.0".toList, newTag := "1.1.0".toList }

/-- Update candidate for the service `"cache"` (failure-isolation scenario). -/
def updateCache : UpdateInfo :=
  { filePath := "docker-compose.yml".toList, serviceName := "cache".toList,
    oldImage := "cache:2.0.0".toList, newImage := "cache:2.1.0".toList,
    repository := "cache".toList, oldTag := "2.0.0".toList, newTag := "2.1.0".toList }

/-- A stage oracle under which only the push of service `"db"` fails. -/
def okExceptDbPush (u : UpdateInfo) (s : Stage) : Bool :=
  !(u.serviceName == "db".toList && s == Stage.commitPush)

/-- Underlying-error text used in the failure-isolation fixtures. -/
def errOfW (_ : UpdateInfo) (_ : Stage) : Str := "remote rejected".toList

/-- Scan-command update candidate for the service `"db"`. -/
def scanUpdateDb : UpdatedImage :=
  { serviceName := "db".toList, filePath := "docker-compose.yml".toList,
    oldImage := "db:1.0.0".toList, newImage := "db:1.1.0".toList,
    repository := "db".toList, oldTag := "1.0.0".toList, newTag := "1.1.0".toList }

/-- A scan-stage oracle under which only the push of service `"db"` fails. -/
def scanOkFailPush (u : UpdatedImage) (s : ScanStage) : Bool :=
  !(u.serviceName == "db".toList && s == ScanStage.commitPush)

/-- Underlying-error text used in the scan-command failure fixture. -/
def scanErrOfW (_ : UpdatedImage) (_ : ScanStage) : Str := "remote rejected".toList

/-! ## Lemmas: decimal rendering -/

theorem digitChar10_isDigit {d : Nat} (h : d < 10) : (digitChar10 d).isDigit = true := by
  interval_cases d <;> decide

theorem digitChar10_toNat {d : Nat} (h : d < 10) : (digitChar10 d).toNat = 48 + d := by
  interval_cases d <;> decide

theorem isDigit_ne {c x : Char} (h : c.isDigit = true) (hx : x.isDigit = false) : c ≠ x := by
  intro he
  rw [he, hx] at h
  cases h

theorem natToStrCore_acc (fuel : Nat) : ∀ (n : Nat) (acc : Str),
    natToStrCore fuel n acc = natToStrCore fuel n [] ++ acc := by
  induction fuel with
  | zero => intro n acc; simp [natToStrCore]
  | succ fuel ih =>
    intro n acc
    simp only [natToStrCore]
    by_cases h : n / 10 = 0
    · simp [h]
    · simp only [if_neg h]
      rw [ih (n / 10) (digitChar10 (n % 10) :: acc), ih (n / 10) [digitChar10 (n % 10)]]
      simp

theorem natToStrCore_fuel : ∀ (f1 f2 n : Nat), n < f1 → n < f2 →
    natToStrCore f1 n [] = natToStrCore f2 n [] := by
  intro f1
  induction f1 with
  | zero => intro f2 n h1; omega
  | succ f ih =>
    intro f2 n h1 h2
    cases f2 with
    | zero => omega
    | succ g =>
      simp only [natToStrCore]
      by_cases h : n / 10 = 0
      · simp [h]
      · simp only [if_neg h]
        rw [natToStrCore_acc f, natToStrCore_acc g]
        have hn10 : ¬ n < 10 := fun hlt => h (Nat.div_eq_of_lt hlt)
        have hlt : n / 10 < n := Nat.div_lt_self (by omega) (by omega)
        rw [ih g (n / 10) (by omega) (by omega)]

theorem natToStr_small {n : Nat} (h : n < 10) : natToStr n = [digitChar10 n] := by
  have h0 : n / 10 = 0 := Nat.div_eq_of_lt h
  simp [natToStr, natToStrCore, h0, Nat.mod_eq_of_lt h]

theorem natToStr_big {n : Nat} (h : 10 ≤ n) :
    natToStr n = natToStr (n / 10) ++ [digitChar10 (n % 10)] := by
  have h0 : n / 10 ≠ 0 := by
    intro hc
    rw [Nat.div_eq_zero_iff (by omega)] at hc
    omega
  have hlt : n / 10 < n := Nat.div_lt_self (by omega) (by omega)
  show natToStrCore (n + 1) n [] = _
  simp only [natToStrCore, if_neg h0]
  rw [natToStrCore_acc n, natToStrCore_fuel n (n / 10 + 1) (n / 10) (by omega) (by omega)]
  rfl

theorem digitsVal_snoc (xs : Str) (c : Char) :
    digitsVal (xs ++ [c]) = 10 * digitsVal xs + (c.toNat - 48) := by
  simp [digitsVal, List.foldl_append]

theorem digitsVal_natToStr (n : Nat) : digitsVal (natToStr n) = n := by
  induction n using Nat.strong_induction_on with
  | _ n ih =>
    by_cases h : n < 10
    · rw [natToStr_small h]
      show 10 * 0 + ((digitChar10 n).toNat - 48) = n
      rw [digitChar10_toNat h]
      omega
    · push_neg at h
      have hlt : n / 10 < n := Nat.div_lt_self (by omega) (by omega)
      rw [natToStr_big h, digitsVal_snoc, ih (n / 10) hlt,
        digitChar10_toNat (Nat.mod_lt n (by omega))]
      omega

theorem natToStr_digits (n : Nat) : ∀ c ∈ natToStr n, c.isDigit = true := by
  induction n using Nat.strong_induction_on with
  | _ n ih =>
    by_cases h : n < 10
    · rw [natToStr_small h]
      intro c hc
      rw [List.mem_singleton] at hc
      rw [hc]
      exact digitChar10_isDigit h
    · push_neg at h
      have hlt : n / 10 < n := Nat.div_lt_self (by omega) (by omega)
      rw [natToStr_big h]
      intro c hc
      rcases List.mem_append.1 hc with h1 | h1
      · exact ih (n / 10) hlt c h1
      · rw [List.mem_singleton] at h1
        rw [h1]
        exact digitChar10_isDigit (Nat.mod_lt n (by omega))

theorem natToStr_ne_nil (n : Nat) : natToStr n ≠ [] := by
  by_cases h : n < 10
  · rw [natToStr_small h]; simp
  · push_neg at h; rw [natToStr_big h]; simp

/-! ## Lemmas: takeWhile and dropWhile -/

theorem takeWhile_middle {p : Char → Bool} (l : Str) (x : Char) (r : Str)
    (hl : ∀ c ∈ l, p c = true) (hx : p x = false) :
    (l ++ x :: r).takeWhile p = l ∧ (l ++ x :: r).dropWhile p = x :: r := by
  induction l with
  | nil => simp [List.takeWhile, List.dropWhile, hx]
  | cons a as ih =>
    have ha : p a = true := hl a (by simp)
    have ihr := ih fun c hc => hl c (List.mem_cons_of_mem a hc)
    simp only [List.cons_append, List.takeWhile_cons, List.dropWhile_cons, ha, if_true]
    exact ⟨by rw [ihr.1], by rw [ihr.2]⟩

theorem takeWhile_id {p : Char → Bool} (l : Str) (hl : ∀ c ∈ l, p c = true) :
    l.takeWhile p = l ∧ l.dropWhile p = [] := by
  induction l with
  | nil => simp
  | cons a as ih =>
    have ha : p a = true := hl a (by simp)
    have ihr := ih fun c hc => hl c (List.mem_cons_of_mem a hc)
    simp only [List.takeWhile_cons, List.dropWhile_cons, ha, if_true]
    exact ⟨by rw [ihr.1], ihr.2⟩

theorem dropWhile_head_false {p : Char → Bool} :
    ∀ {s : Str} {x : Char} {xs : Str}, s.dropWhile p = x :: xs → p x = false := by
  intro s
  induction s with
  | nil => intro x xs h; cases h
  | cons a as ih =>
    intro x xs h
    rw [List.dropWhile_cons] at h
    by_cases hpa : p a = true
    · rw [if_pos hpa] at h
      exact ih h
    · rw [if_neg hpa] at h
      cases h
      exact Bool.eq_false_iff.2 hpa

/-! ## Lemmas: the triplet matcher -/

theorem tripleAux_chars : ∀ (s : Str) (k : Nat) (nd : Bool), tripleAux s k nd = true →
    ∀ c ∈ s, c.isDigit = true ∨ c = '.' := by
  intro s
  induction s with
  | nil => intro k nd _ c hc; cases hc
  | cons a as ih =>
    intro k nd h c hc
    simp only [tripleAux] at h
    rcases List.mem_cons.1 hc with rfl | hc
    · by_cases hd : c.isDigit = true
      · exact Or.inl hd
      · rw [if_neg hd] at h
        by_cases hdot : c = '.'
        · exact Or.inr hdot
        · rw [if_neg hdot] at h; cases h
    · by_cases hd : a.isDigit = true
      · rw [if_pos hd] at h
        exact ih k false h c hc
      · rw [if_neg hd] at h
        by_cases hdot : a = '.'
        · rw [if_pos hdot] at h
          cases k with
          | zero => cases h
          | succ n =>
            by_cases hnd : nd = true
            · simp only [hnd, if_true] at h; cases h
            · have hnd2 : nd = false := by revert hnd; cases nd <;> simp
              rw [hnd2] at h
              have h2 : tripleAux as n true = true := h
              exact ih n true h2 c hc
        · rw [if_neg hdot] at h; cases h

theorem tripleAux_count : ∀ (s : Str) (k : Nat) (nd : Bool), tripleAux s k nd = true →
    s.count '.' = k := by
  intro s
  induction s with
  | nil =>
    intro k nd h
    simp only [tripleAux, Bool.and_eq_true, beq_iff_eq] at h
    simp [h.1]
  | cons a as ih =>
    intro k nd h
    simp only [tripleAux] at h
    by_cases hd : a.isDigit = true
    · rw [if_pos hd] at h
      have ha : a ≠ '.' := isDigit_ne hd (by decide)
      rw [List.count_cons_of_ne (Ne.symm ha), ih k false h]
    · rw [if_neg hd] at h
      by_cases hdot : a = '.'
      · rw [if_pos hdot] at h
        cases k with
        | zero => cases h
        | succ n =>
          by_cases hnd : nd = true
          · simp only [hnd, if_true] at h; cases h
          · have hnd2 : nd = false := by revert hnd; cases nd <;> simp
            rw [hnd2] at h
            have h2 : tripleAux as n true = true := h
            rw [hdot, List.count_cons_self, ih n true h2]
      · rw [if_neg hdot] at h; cases h

theorem tripleAux_skip_digits : ∀ (ds : Str) (rest : Str) (k : Nat) (nd : Bool),
    ds ≠ [] → (∀ c ∈ ds, c.isDigit = true) →
    tripleAux (ds ++ rest) k nd = tripleAux rest k false := by
  intro ds
  induction ds with
  | nil => intro rest k nd h; cases h rfl
  | cons d ds ih =>
    intro rest k nd _ hall
    have hd : d.isDigit = true := hall d (by simp)
    simp only [List.cons_append, tripleAux, hd, if_true]
    cases ds with
    | nil => simp
    | cons e es =>
      exact ih rest k false (by simp) fun c hc => hall c (List.mem_cons_of_mem d hc)

theorem isTriple_of_parts (a b c : Str) (ha : a ≠ []) (hb : b ≠ []) (hc : c ≠ [])
    (hda : ∀ x ∈ a, x.isDigit = true) (hdb : ∀ x ∈ b, x.isDigit = true)
    (hdc : ∀ x ∈ c, x.isDigit = true) :
    isTriple (a ++ '.' :: (b ++ '.' :: c)) = true := by
  show tripleAux _ 2 true = true
  rw [tripleAux_skip_digits a _ 2 true ha hda]
  show tripleAux ('.' :: (b ++ '.' :: c)) 2 false = true
  simp only [tripleAux, if_neg (by decide : ¬('.'.isDigit = true)), if_pos rfl,
    Bool.false_eq_true, if_false]
  rw [show b ++ '.' :: c = b ++ ('.' :: c) from rfl, tripleAux_skip_digits b _ 1 true hb hdb]
  simp only [tripleAux, if_neg (by decide : ¬('.'.isDigit = true)), if_pos rfl,
    Bool.false_eq_true, if_false]
  rw [show (c : Str) = c ++ [] by simp, tripleAux_skip_digits c [] 0 true hc hdc]
  decide

theorem isTriple_chars {s : Str} (h : isTriple s = true) :
    ∀ c ∈ s, c.isDigit = true ∨ c = '.' :=
  tripleAux_chars s 2 true h

theorem isTriple_count {s : Str} (h : isTriple s = true) : s.count '.' = 2 :=
  tripleAux_count s 2 true h

/-! ## Lemmas: the tag splitter -/

theorem extractAux_eq (acc rest : Str) :
    extractAux acc rest =
      if isTriple rest = true then some (acc.reverse, rest)
      else
        match rest with
        | [] => none
        | c :: cs => if c = '\n' then none else extractAux (c :: acc) cs := by
  cases rest <;> rfl

theorem extractAux_split : ∀ (rest acc pfx vs : Str),
    extractAux acc rest = some (pfx, vs) → pfx ++ vs = acc.reverse ++ rest := by
  intro rest
  induction rest with
  | nil =>
    intro acc pfx vs h
    rw [extractAux_eq] at h
    by_cases ht : isTriple [] = true
    · rw [if_pos ht] at h
      cases h
      simp
    · rw [if_neg ht] at h; cases h
  | cons c cs ih =>
    intro acc pfx vs h
    rw [extractAux_eq] at h
    by_cases ht : isTriple (c :: cs) = true
    · rw [if_pos ht] at h
      cases h
      simp
    · rw [if_neg ht] at h
      have h2 : (if c = '\n' then none else extractAux (c :: acc) cs) = some (pfx, vs) := h
      by_cases hn : c = '\n'
      · rw [if_pos hn] at h2; cases h2
      · rw [if_neg hn] at h2
        have h3 := ih (c :: acc) pfx vs h2
        rw [h3, List.reverse_cons, List.append_assoc]
        rfl

theorem extractAux_boundary : ∀ (pre : Str) (trip : Str) (acc : Str),
    (∀ s : Str, s ≠ [] → s <:+ pre → isTriple (s ++ trip) = false) →
    (∀ c ∈ pre, c ≠ '\n') → isTriple trip = true →
    extractAux acc (pre ++ trip) = some (acc.reverse ++ pre, trip) := by
  intro pre
  induction pre with
  | nil =>
    intro trip acc _ _ ht
    rw [List.nil_append, extractAux_eq, if_pos ht, List.append_nil]
  | cons c cs ih =>
    intro trip acc hblock hnl ht
    have hfull : isTriple ((c :: cs) ++ trip) = false :=
      hblock (c :: cs) (by simp) List.suffix_rfl
    rw [List.cons_append, extractAux_eq]
    rw [if_neg (by
      rw [show c :: (cs ++ trip) = (c :: cs) ++ trip from rfl, hfull]
      simp)]
    show (if c = '\n' then none else extractAux (c :: acc) (cs ++ trip)) = _
    rw [if_neg (hnl c (List.mem_cons_self c cs))]
    rw [ih trip (c :: acc)
      (fun s hs hsfx => hblock s hs (hsfx.trans (List.suffix_cons c cs)))
      (fun x hx => hnl x (List.mem_cons_of_mem c hx)) ht]
    rw [List.reverse_cons, List.append_assoc]
    rfl

/-! ## Lemmas: `newVersion` on a plain digit triplet -/

theorem stripV_cons {x : Char} (t : Str) (hx : x ≠ 'v') : stripV (x :: t) = x :: t := by
  simp [stripV, hx]

theorem dotNum_middle (d r : Str) (hd : d ≠ []) (hdd : ∀ x ∈ d, x.isDigit = true) :
    dotNum ('.' :: (d ++ '.' :: r)) = (some d, '.' :: r) := by
  obtain ⟨d0, ds, rfl⟩ : ∃ d0 ds, d = d0 :: ds := by
    cases d with | nil => cases hd rfl | cons d0 ds => exact ⟨d0, ds, rfl⟩
  have hd0 : d0.isDigit = true := hdd d0 (by simp)
  obtain ⟨htw, hdw⟩ := takeWhile_middle (p := Char.isDigit) (d0 :: ds) '.' r hdd (by decide)
  simp only [List.cons_append] at htw hdw
  simp only [List.cons_append, dotNum, hd0, if_true, htw, hdw]

theorem dotNum_last (d : Str) (hd : d ≠ []) (hdd : ∀ x ∈ d, x.isDigit = true) :
    dotNum ('.' :: d) = (some d, []) := by
  obtain ⟨d0, ds, rfl⟩ : ∃ d0 ds, d = d0 :: ds := by
    cases d with | nil => cases hd rfl | cons d0 ds => exact ⟨d0, ds, rfl⟩
  have hd0 : d0.isDigit = true := hdd d0 (by simp)
  obtain ⟨htw, hdw⟩ := takeWhile_id (p := Char.isDigit) (d0 :: ds) hdd
  simp only [dotNum, hd0, if_true, htw, hdw]

theorem newVersion_parts (a b c : Str)
    (ha : a ≠ []) (hb : b ≠ []) (hc : c ≠ [])
    (hda : ∀ x ∈ a, x.isDigit = true) (hdb : ∀ x ∈ b, x.isDigit = true)
    (hdc : ∀ x ∈ c, x.isDigit = true)
    (hba : digitsVal a < uintMax) (hbb : digitsVal b < uintMax) (hbc : digitsVal c < uintMax) :
    newVersion (a ++ '.' :: (b ++ '.' :: c)) =
      some { major := digitsVal a, minor := digitsVal b, patch := digitsVal c,
             pre := [], meta := [] } := by
  obtain ⟨a0, as, rfl⟩ : ∃ a0 as, a = a0 :: as := by
    cases a with | nil => cases ha rfl | cons a0 as => exact ⟨a0, as, rfl⟩
  have ha0 : a0.isDigit = true := hda a0 (by simp)
  have hsv : stripV (a0 :: (as ++ '.' :: (b ++ '.' :: c))) =
      a0 :: (as ++ '.' :: (b ++ '.' :: c)) :=
    stripV_cons _ (isDigit_ne ha0 (by decide))
  obtain ⟨htwa, hdwa⟩ := takeWhile_middle (p := Char.isDigit)
    (a0 :: as) '.' (b ++ '.' :: c) hda (by decide)
  simp only [List.cons_append] at htwa hdwa
  have hd2 := dotNum_middle b c hb hdb
  have hd3 := dotNum_last c hc hdc
  simp only [List.cons_append, newVersion, hsv, htwa, hdwa, hd2, hd3, List.isEmpty_cons,
    Bool.false_eq_true, if_false, List.isEmpty_nil, if_true, Option.getD_some]
  rw [if_pos]
  simp only [Bool.and_eq_true, decide_eq_true_eq]
  exact ⟨⟨hba, hbb⟩, hbc⟩

theorem isTriple_blocked (s trip : Str) (_hs : s ≠ []) (htrip : isTriple trip = true)
    (d : Char) (hlast : s.getLast? = some d) (hd : d.isDigit = false) :
    isTriple (s ++ trip) = false := by
  have hdmem : d ∈ s := List.mem_of_mem_getLast? (by rw [hlast]; rfl)
  cases hIT : isTriple (s ++ trip) with
  | false => rfl
  | true =>
    exfalso
    by_cases hdot : d = '.'
    · have hcnt := isTriple_count hIT
      rw [List.count_append, isTriple_count htrip] at hcnt
      have hpos : 0 < s.count '.' := List.count_pos_iff.2 (hdot ▸ hdmem)
      omega
    · rcases isTriple_chars hIT d (List.mem_append_left trip hdmem) with h1 | h1
      · rw [h1] at hd; cases hd
      · exact hdot h1

theorem isTriple_canonTriplet (M m p : Nat) : isTriple (canonTriplet M m p) = true :=
  isTriple_of_parts _ _ _ (natToStr_ne_nil M) (natToStr_ne_nil m) (natToStr_ne_nil p)
    (natToStr_digits M) (natToStr_digits m) (natToStr_digits p)

theorem newVersion_canonTriplet (M m p : Nat)
    (hM : M < uintMax) (hm : m < uintMax) (hp : p < uintMax) :
    newVersion (canonTriplet M m p) = some ⟨M, m, p, [], []⟩ := by
  have h := newVersion_parts (natToStr M) (natToStr m) (natToStr p)
    (natToStr_ne_nil M) (natToStr_ne_nil m) (natToStr_ne_nil p)
    (natToStr_digits M) (natToStr_digits m) (natToStr_digits p)
    (by rw [digitsVal_natToStr]; exact hM) (by rw [digitsVal_natToStr]; exact hm)
    (by rw [digitsVal_natToStr]; exact hp)
  rw [digitsVal_natToStr, digitsVal_natToStr, digitsVal_natToStr] at h
  exact h

theorem toStr_canonTriplet (M m p : Nat) :
    SemVer.toStr ⟨M, m, p, [], []⟩ = canonTriplet M m p := by
  simp [SemVer.toStr, canonTriplet]

theorem extract_canonTriplet (pre : Str) (M m p : Nat)
    (hnl : '\n' ∉ pre) (hlast : ∀ d, pre.getLast? = some d → d.isDigit = false) :
    extractVersionFromTag (pre ++ canonTriplet M m p) = some (pre, canonTriplet M m p) := by
  have hb := extractAux_boundary pre (canonTriplet M m p) []
    (fun s hs hsfx => by
      obtain ⟨t, rfl⟩ := hsfx
      obtain ⟨d, hd⟩ := Option.isSome_iff_exists.1 (List.getLast?_isSome.2 hs)
      refine isTriple_blocked s _ hs (isTriple_canonTriplet M m p) d hd (hlast d ?_)
      rw [List.getLast?_append_of_ne_nil t hs, hd])
    (fun c hc he => hnl (he ▸ hc)) (isTriple_canonTriplet M m p)
  simpa [extractVersionFromTag] using hb

/-! ## Lemmas: the latest-version selection -/

theorem foldl_best_mem (ms : List VersionInfo) : ∀ best : VersionInfo,
    ms.foldl (fun b v => if v.version.greaterThan b.version then v else b) best = best ∨
    ms.foldl (fun b v => if v.version.greaterThan b.version then v else b) best ∈ ms := by
  induction ms with
  | nil => intro best; left; rfl
  | cons v vs ih =>
    intro best
    simp only [List.foldl_cons]
    rcases ih (if v.version.greaterThan best.version then v else best) with h | h
    · rw [h]
      by_cases hc : v.version.greaterThan best.version = true
      · right; rw [if_pos hc]; exact List.mem_cons_self v vs
      · left; rw [if_neg hc]
    · right; exact List.mem_cons_of_mem v h

theorem findLatestVersion_none_iff (tags : List Str) (pfx : Str) :
    findLatestVersion tags pfx = none ↔ findMatchingVersions tags pfx = [] := by
  unfold findLatestVersion
  cases findMatchingVersions tags pfx with
  | nil => simp
  | cons m ms => simp

theorem findLatestVersion_mem {tags : List Str} {pfx : Str} {vi : VersionInfo}
    (h : findLatestVersion tags pfx = some vi) : vi ∈ findMatchingVersions tags pfx := by
  unfold findLatestVersion at h
  cases hm : findMatchingVersions tags pfx with
  | nil => rw [hm] at h; cases h
  | cons m ms =>
    rw [hm] at h
    have hv := Option.some.inj h
    rcases foldl_best_mem ms m with h1 | h1
    · rw [← hv, h1]; exact List.mem_cons_self m ms
    · rw [← hv]; exact List.mem_cons_of_mem m h1

/-! ## Claim C1: candidate selection in findMatchingVersions -/

/-- C1, counterexample: with prefix `"foo-"`, the tag `"foo-2.0.0-rc1"` —
whose remainder carries a pre-release suffix — and the tag `"foo-2.1"` —
whose remainder has fewer than three numeric components — are both
selected as candidates, because `semver.NewVersion` is the lenient
Masterminds parser; the claim says neither one is ever a candidate. -/
theorem c1_matching_counterexample :
    findMatchingVersions ["foo-2.0.0-rc1".toList] "foo-".toList =
      [{ fullTag := "foo-2.0.0-rc1".toList,
         version := { major := 2, minor := 0, patch := 0, pre := "rc1".toList, meta := [] } }] ∧
    findMatchingVersions ["foo-2.1".toList] "foo-".toList =
      [{ fullTag := "foo-2.1".toList,
         version := { major := 2, minor := 1, patch := 0, pre := [], meta := [] } }] := by
  decide

/-- C1, amended: a registry tag is selected as a candidate iff it carries
the prefix as a literal string prefix and the remainder after stripping it
parses under the lenient Masterminds grammar
(optional `v`, one to three dot-separated numeric components, optional
pre-release and build-metadata suffixes) — not only under the plain
`major.minor.patch` rule the claim states; a non-prefixed tag is never a
candidate. -/
theorem c1_matching_amended : ∀ (tags : List Str) (pfx tag : Str),
    (∃ v, ({ fullTag := tag, version := v } : VersionInfo) ∈ findMatchingVersions tags pfx) ↔
      (tag ∈ tags ∧ pfx.isPrefixOf tag = true ∧
        (newVersion (tag.drop pfx.length)).isSome = true) := by
  intro tags pfx tag
  constructor
  · rintro ⟨v, hv⟩
    obtain ⟨b, hb, hfb⟩ := List.mem_filterMap.1 hv
    by_cases hp : pfx.isPrefixOf b = true
    · rw [if_pos hp] at hfb
      cases hnv : newVersion (b.drop pfx.length) with
      | none => rw [hnv] at hfb; cases hfb
      | some w =>
        rw [hnv] at hfb
        have hfb2 : some ({ fullTag := b, version := w } : VersionInfo) =
            some { fullTag := tag, version := v } := hfb
        have hbt : b = tag := congrArg VersionInfo.fullTag (Option.some.inj hfb2)
        subst hbt
        exact ⟨hb, hp, by rw [hnv]; rfl⟩
    · rw [if_neg hp] at hfb
      cases hfb
  · rintro ⟨htag, hp, hsome⟩
    cases hnv : newVersion (tag.drop pfx.length) with
    | none => rw [hnv] at hsome; cases hsome
    | some v =>
      refine ⟨v, List.mem_filterMap.2 ⟨tag, htag, ?_⟩⟩
      rw [if_pos hp, hnv]

/-- C1, witness: `"apache-2.35.0"` is a candidate for prefix `"apache-"`
among the tags of scenario A. -/
theorem c1_matching_witness :
    ∃ v, ({ fullTag := "apache-2.35.0".toList, version := v } : VersionInfo) ∈
      findMatchingVersions
        ["apache-2.34.0".toList, "apache-2.35.0".toList, "apache-rc1".toList]
        "apache-".toList :=
  (c1_matching_amended
    ["apache-2.34.0".toList, "apache-2.35.0".toList, "apache-rc1".toList]
    "apache-".toList "apache-2.35.0".toList).mpr ⟨by decide, by decide, by decide⟩

/-! ## Claim C2: the round-trip law of tag parsing -/

/-- C2, counterexample: the tag `"v01.2.3"` — which is of the claimed form
`prefix ++ "{major}.{minor}.{patch}"` with prefix `"v0"` — is accepted by
the tag parser, splitting as `("v", "01.2.3")`, but re-concatenating the
prefix with the string form of the parsed version gives `"v1.2.3"`, not
the original tag. -/
theorem c2_roundtrip_counterexample :
    extractVersionFromTag "v01.2.3".toList = some ("v".toList, "01.2.3".toList) ∧
    newVersion "01.2.3".toList = some ⟨1, 2, 3, [], []⟩ ∧
    "v".toList ++ SemVer.toStr ⟨1, 2, 3, [], []⟩ ≠ "v01.2.3".toList ∧
    "v0".toList ++ canonTriplet 1 2 3 = "v01.2.3".toList := by decide

/-- C2, amended: for every accepted tag, the extracted prefix and version
string partition the tag exactly (`prefix ++ versionStr = tag`); and when
the tag is `prefix ++ "{major}.{minor}.{patch}"` with the components
written canonically (no leading zeros, each below `2^64`) and the prefix
neither ends in a digit nor contains a newline, the parser returns exactly
that split and re-concatenating the prefix with the parsed version's
string form reproduces the tag. -/
theorem c2_roundtrip_amended :
    (∀ tag pre vs : Str, extractVersionFromTag tag = some (pre, vs) → pre ++ vs = tag) ∧
    (∀ (pre : Str) (M m p : Nat), M < uintMax → m < uintMax → p < uintMax →
      '\n' ∉ pre → (∀ d, pre.getLast? = some d → d.isDigit = false) →
      extractVersionFromTag (pre ++ canonTriplet M m p) = some (pre, canonTriplet M m p) ∧
      newVersion (canonTriplet M m p) = some ⟨M, m, p, [], []⟩ ∧
      pre ++ SemVer.toStr ⟨M, m, p, [], []⟩ = pre ++ canonTriplet M m p) := by
  constructor
  · intro tag pre vs h
    simpa using extractAux_split tag [] pre vs h
  · intro pre M m p hM hm hp hnl hlast
    exact ⟨extract_canonTriplet pre M m p hnl hlast,
      newVersion_canonTriplet M m p hM hm hp,
      by rw [toStr_canonTriplet]⟩

/-- C2, witness: the round-trip law at the concrete tag `"apache-2.34.0"`. -/
theorem c2_roundtrip_witness :
    ("apache-".toList ++ "2.34.0".toList = "apache-2.34.0".toList) ∧
    (extractVersionFromTag ("apache-".toList ++ canonTriplet 2 34 0) =
        some ("apache-".toList, canonTriplet 2 34 0) ∧
      newVersion (canonTriplet 2 34 0) = some ⟨2, 34, 0, [], []⟩ ∧
      "apache-".toList ++ SemVer.toStr ⟨2, 34, 0, [], []⟩ =
        "apache-".toList ++ canonTriplet 2 34 0) :=
  ⟨c2_roundtrip_amended.1 "apache-2.34.0".toList "apache-".toList "2.34.0".toList (by decide),
   c2_roundtrip_amended.2 "apache-".toList 2 34 0 (by decide) (by decide) (by decide)
     (by decide)
     (fun d hd => by
       rw [show (("apache-".toList : Str)).getLast? = some '-' from rfl] at hd
       cases hd
       decide)⟩

/-! ## Claim C3: the strict-greater update decision -/

/-- C3: whenever `CheckImage` succeeds and a candidate was selected,
`HasUpdate` is set exactly when the selected candidate's version is
strictly greater than the current version (`Compare > 0`), the selected
candidate is one of the prefix-matching candidates, and with no candidate
`HasUpdate` stays false — so a candidate whose version is less than or
equal to the current one is never proposed. -/
theorem c3_update_decision : ∀ (image : Str) (tags : List Str) (info : ImageInfo),
    checkImage image tags = .ok info →
      (∀ lv, info.latestVersion = some lv →
        info.hasUpdate = lv.greaterThan info.version ∧
        (info.hasUpdate = true ↔ 0 < lv.compare info.version) ∧
        ({ fullTag := info.latestTag, version := lv } : VersionInfo) ∈
          findMatchingVersions tags info.pfx) ∧
      (info.latestVersion = none → info.hasUpdate = false) ∧
      (findMatchingVersions tags info.pfx ≠ [] → info.latestVersion.isSome = true) := by
  intro image tags info h
  unfold checkImage at h
  split at h
  · cases h
  · split at h
    · cases h
    · split at h
      · cases h
      · split at h
        · rename_i heq
          cases h
          refine ⟨?_, ?_, ?_⟩
          · intro lv hlv
            cases hlv
          · intro _
            rfl
          · intro hne
            exact absurd ((findLatestVersion_none_iff _ _).1 heq) hne
        · rename_i latest heq
          cases h
          refine ⟨?_, ?_, ?_⟩
          · intro lv hlv
            have hlv2 := Option.some.inj hlv
            subst hlv2
            refine ⟨rfl, ?_, findLatestVersion_mem heq⟩
            simp [SemVer.greaterThan]
          · intro h2
            cases h2
          · intro _
            rfl

/-- C3, witness: the decision at `app:1.0.0` against the tag list
`["1.2.0"]`. -/
theorem c3_update_decision_witness :
    infoW.hasUpdate = true ∧
    ({ fullTag := infoW.latestTag, version := verW } : VersionInfo) ∈
      findMatchingVersions tagsW infoW.pfx := by
  have h := c3_update_decision imageW tagsW infoW rfl
  have h1 := h.1 verW rfl
  exact ⟨h1.2.1.mpr (by decide), h1.2.2⟩

/-! ## Lemmas: the fetch loop -/

theorem not_isEmpty_of_ne_nil {l : Str} (h : l ≠ []) : ¬ l.isEmpty = true := by
  cases l with
  | nil => cases h rfl
  | cons a as => simp

theorem fetchAllTags_nil (server : Str → Option HubResponse) (fuel : Nat) :
    fetchAllTags server fuel [] = .ok [] := by
  cases fuel <;> rfl

theorem fetchAllTags_cons_eq (server : Str → Option HubResponse) (fuel : Nat) (url : Str)
    (resp : HubResponse) (hu : url ≠ []) (hs : server url = some resp) :
    fetchAllTags server (fuel + 1) url =
      if resp.status ≠ 200 then .error (.http resp.status)
      else
        match fetchAllTags server fuel resp.next with
        | .ok rest => .ok (resp.results ++ rest)
        | .error e => .error e := by
  simp only [fetchAllTags]
  rw [if_neg (not_isEmpty_of_ne_nil hu), hs]

/-! ## Claim C4: pagination completeness -/

/-- C4: over any chain of pages whose `next` pointers link them in order and
are empty on the last page, the fetch loop returns exactly the
concatenation of the pages' tag names in page order — no deduplication,
no sorting. -/
theorem c4_pagination : ∀ (server : Str → Option HubResponse)
    (chain : List (Str × HubResponse)) (u : Str) (p : HubResponse) (fuel : Nat),
    chainOk server ((u, p) :: chain) → chain.length < fuel →
    fetchAllTags server fuel u = .ok (concatResults ((u, p) :: chain)) := by
  intro server chain
  induction chain with
  | nil =>
    intro u p fuel hc hf
    obtain ⟨hu, hs, hst, hnext, -⟩ := hc
    cases fuel with
    | zero => omega
    | succ f =>
      rw [fetchAllTags_cons_eq server f u p hu hs, if_neg (by simp [hst]), hnext,
        fetchAllTags_nil]
      simp [concatResults]
  | cons q rest ih =>
    intro u p fuel hc hf
    obtain ⟨u2, p2⟩ := q
    obtain ⟨hu, hs, hst, hnext, hc2⟩ := hc
    cases fuel with
    | zero => exact absurd hf (by simp)
    | succ f =>
      rw [fetchAllTags_cons_eq server f u p hu hs, if_neg (by simp [hst]), hnext,
        ih u2 p2 f hc2 (by simpa using hf)]
      rfl

/-- C4, witness: three chained pages of two tags each yield all six tags in
order. -/
theorem c4_pagination_witness :
    fetchAllTags server3 3 "u1".toList = .ok (concatResults chain3) :=
  c4_pagination server3 [("u2".toList, pageB), ("u3".toList, pageC)] "u1".toList pageA 3
    ⟨by decide, by decide, by decide, by decide,
      by decide, by decide, by decide, by decide,
      by decide, by decide, by decide, by decide, trivial⟩
    (by decide)

/-! ## Claim C5: HTTP status handling in the fetch loop -/

/-- C5, counterexample: a page answered with status 201 — a 2xx status —
still fails the whole fetch with a status error, because the loop compares
the status against exactly `http.StatusOK` (200), not against the 2xx
range; the claim says a 2xx response never causes a status error. -/
theorem c5_status_counterexample :
    (200 ≤ 201 ∧ 201 < 300) ∧
    fetchAllTags server201 1 "u".toList = .error (.http 201) :=
  ⟨by decide, rfl⟩

/-- C5, amended: a page response whose status is not exactly 200 makes the
whole fetch fail at once with a hard error carrying that status (no retry
in this loop); conversely a 200 response never produces a status error,
but 2xx statuses other than 200 do. -/
theorem c5_status_amended :
    (∀ (server : Str → Option HubResponse) (fuel : Nat) (url : Str) (resp : HubResponse),
      url ≠ [] → server url = some resp → resp.status ≠ 200 →
      fetchAllTags server (fuel + 1) url = .error (.http resp.status)) ∧
    (∀ (server : Str → Option HubResponse) (fuel : Nat) (url : Str) (s : Nat),
      fetchAllTags server fuel url = .error (.http s) → s ≠ 200) := by
  constructor
  · intro server fuel url resp hu hs hst
    rw [fetchAllTags_cons_eq server fuel url resp hu hs, if_pos hst]
  · intro server fuel
    induction fuel with
    | zero =>
      intro url s h
      simp only [fetchAllTags] at h
      by_cases he : url.isEmpty = true
      · rw [if_pos he] at h; cases h
      · rw [if_neg he] at h; cases h
    | succ f ih =>
      intro url s h
      simp only [fetchAllTags] at h
      by_cases he : url.isEmpty = true
      · rw [if_pos he] at h; cases h
      · rw [if_neg he] at h
        cases hs : server url with
        | none => rw [hs] at h; cases h
        | some resp =>
          rw [hs] at h
          have h2 : (if resp.status ≠ 200 then (.error (.http resp.status) :
              Except FetchError (List Str))
            else
              match fetchAllTags server f resp.next with
              | .ok rest => .ok (resp.results ++ rest)
              | .error e => .error e) = .error (.http s) := h
          by_cases hst : resp.status ≠ 200
          · rw [if_pos hst] at h2
            have h3 := FetchError.http.inj (Except.error.inj h2)
            exact h3 ▸ hst
          · rw [if_neg hst] at h2
            cases hrec : fetchAllTags server f resp.next with
            | ok rest => rw [hrec] at h2; cases h2
            | error e =>
              rw [hrec] at h2
              have h4 := Except.error.inj h2
              rw [h4] at hrec
              exact ih resp.next s hrec

/-- C5, witness: a 404 page fails the fetch with `http 404`, and 404 is not
200. -/
theorem c5_status_witness :
    fetchAllTags server404 1 "u".toList = .error (.http 404) ∧ (404 : Nat) ≠ 200 :=
  ⟨c5_status_amended.1 server404 0 "u".toList
      { results := [], next := [], status := 404 } (by decide) (by decide) (by decide),
    c5_status_amended.2 server404 1 "u".toList 404
      (c5_status_amended.1 server404 0 "u".toList
        { results := [], next := [], status := 404 } (by decide) (by decide) (by decide))⟩

/-! ## Claim C6: the image-string split -/

theorem ne_nil_of_isEmpty_eq_false {l : Str} (h : l.isEmpty = false) : l ≠ [] := by
  intro he
  rw [he] at h
  cases h

theorem isEmpty_eq_false_of_ne_nil {l : Str} (h : l ≠ []) : l.isEmpty = false := by
  cases l with
  | nil => cases h rfl
  | cons a as => rfl

/-- C6, counterexample: `"a:b\nc"` has a colon, a non-empty part before its
first colon and a non-empty part after it, yet `parseImageString` reports
the no-tag-found error, because in Go RE2 the `.` of `(.+)$` does not
match a newline; the claim's list of error conditions is therefore not
exhaustive. -/
theorem c6_image_split_counterexample :
    parseImageString "a:b\nc".toList = none ∧
    "a:b\nc".toList = "a".toList ++ ':' :: "b\nc".toList ∧
    "a".toList ≠ [] ∧ "b\nc".toList ≠ [] := by decide

/-- C6, amended: `parseImageString` succeeds exactly on strings of the form
`repository ++ ":" ++ tag` where the repository part is non-empty and
colon-free — so the split is at the *first* colon, as in
`host:5000/app:tag ↦ (host, 5000/app:tag)` — and the tag part is
non-empty and newline-free (`.` in Go RE2 does not match newlines); in
every other case, including a newline after the first colon, it reports
the no-tag-found error. -/
theorem c6_image_split_amended :
    (∀ s r t : Str, parseImageString s = some (r, t) ↔
      (s = r ++ ':' :: t ∧ r ≠ [] ∧ ':' ∉ r ∧ t ≠ [] ∧ '\n' ∉ t)) ∧
    parseImageString "host:5000/app:tag".toList =
      some ("host".toList, "5000/app:tag".toList) := by
  constructor
  · intro s r t
    constructor
    · intro h
      unfold parseImageString at h
      cases hdw : s.dropWhile (fun c => c ≠ ':') with
      | nil => rw [hdw] at h; cases h
      | cons x xs =>
        rw [hdw] at h
        have hx : (fun c => (c ≠ ':' : Bool)) x = false := dropWhile_head_false hdw
        have hx2 : x = ':' := by simpa using hx
        subst hx2
        have h2 : (if (!(s.takeWhile (fun c => c ≠ ':')).isEmpty && !xs.isEmpty
              && xs.all (fun c => c ≠ '\n')) = true then
            some (s.takeWhile (fun c => c ≠ ':'), xs) else none) = some (r, t) := h
        by_cases hcond : (!(s.takeWhile (fun c => c ≠ ':')).isEmpty && !xs.isEmpty
            && xs.all (fun c => c ≠ '\n')) = true
        · rw [if_pos hcond] at h2
          have h5 := Option.some.inj h2
          injection h5 with h5a h5b
          subst h5a
          subst h5b
          simp only [Bool.and_eq_true, Bool.not_eq_true', List.all_eq_true,
            decide_eq_true_eq] at hcond
          obtain ⟨⟨hre, hte⟩, hall⟩ := hcond
          refine ⟨?_, ne_nil_of_isEmpty_eq_false hre, ?_,
            ne_nil_of_isEmpty_eq_false hte, ?_⟩
          · conv_lhs => rw [← List.takeWhile_append_dropWhile
              (p := fun c => c ≠ ':') (l := s), hdw]
          · intro hmem
            have := List.mem_takeWhile_imp hmem
            simp at this
          · intro hmem
            exact hall '\n' hmem rfl
        · rw [if_neg hcond] at h2
          cases h2
    · rintro ⟨rfl, hrne, hrcolon, htne, htnl⟩
      have hl : ∀ c ∈ r, (fun c => (c ≠ ':' : Bool)) c = true :=
        fun c hc => decide_eq_true fun he => hrcolon (he ▸ hc)
      obtain ⟨htw, hdw⟩ := takeWhile_middle (p := fun c => c ≠ ':') r ':' t hl (by simp)
      unfold parseImageString
      rw [htw, hdw]
      show (if (!r.isEmpty && !t.isEmpty && t.all (fun c => c ≠ '\n')) = true then
        some (r, t) else none) = some (r, t)
      rw [if_pos]
      simp only [Bool.and_eq_true, Bool.not_eq_true', List.all_eq_true, decide_eq_true_eq]
      exact ⟨⟨isEmpty_eq_false_of_ne_nil hrne, isEmpty_eq_false_of_ne_nil htne⟩,
        fun x hx he => htnl (he ▸ hx)⟩
  · decide

/-- C6, witness: the characterization applied to `"app:1.2.3"`. -/
theorem c6_image_split_witness :
    parseImageString "app:1.2.3".toList = some ("app".toList, "1.2.3".toList) :=
  (c6_image_split_amended.1 "app:1.2.3".toList "app".toList "1.2.3".toList).mpr
    ⟨by decide, by decide, by decide, by decide, by decide⟩

/-! ## Claim C7: branch naming -/

theorem replaceAllCh_killed {l : Str} {a b : Char} (hba : b ≠ a) :
    ∀ c ∈ replaceAllCh l a b, c ≠ a := by
  intro c hc
  obtain ⟨x, hx, rfl⟩ := List.mem_map.1 hc
  by_cases hxa : x = a
  · rw [if_pos hxa]
    exact hba
  · rw [if_neg hxa]
    exact hxa

theorem replaceAllCh_pres {l : Str} {a b d : Char} (hl : ∀ x ∈ l, x ≠ d) (hbd : b ≠ d) :
    ∀ c ∈ replaceAllCh l a b, c ≠ d := by
  intro c hc
  obtain ⟨x, hx, rfl⟩ := List.mem_map.1 hc
  by_cases hxa : x = a
  · rw [if_pos hxa]
    exact hbd
  · rw [if_neg hxa]
    exact hl x hx

/-- C7, counterexample: in the check command's workflow the branch name is
derived by replacing only `/`, so for the service name `"web.app"` the
dots survive and the branch differs from the claimed fully-sanitized
form. -/
theorem c7_branch_name_counterexample :
    '.' ∈ checkCmdBranchName "20250101-120000".toList "web.app".toList ∧
    checkCmdBranchName "20250101-120000".toList "web.app".toList ≠
      "img-upgr/".toList ++ sanitizeBranchName "web.app".toList ++
        '-' :: "20250101-120000".toList := by decide

/-- C7, amended: both workflows derive
`img-upgr/<sanitized-service-name>-<timestamp>`, but the scan command's
`generateBranchName` replaces every `/`, `:` and `.` with `-`, while the
check command's inline derivation replaces only `/`; the timestamp layout
is `"20060102-150405"` (second resolution) in both. -/
theorem c7_branch_name_amended : ∀ timestamp serviceName : Str,
    generateBranchName timestamp serviceName =
      "img-upgr/".toList ++ sanitizeBranchName serviceName ++ '-' :: timestamp ∧
    (∀ c ∈ sanitizeBranchName serviceName, c ≠ '/' ∧ c ≠ ':' ∧ c ≠ '.') ∧
    checkCmdBranchName timestamp serviceName =
      "img-upgr/".toList ++ replaceAllCh serviceName '/' '-' ++ '-' :: timestamp ∧
    (∀ c ∈ replaceAllCh serviceName '/' '-', c ≠ '/') ∧
    branchTimestampFormat = "20060102-150405".toList := by
  intro timestamp serviceName
  refine ⟨rfl, ?_, rfl, replaceAllCh_killed (by decide), rfl⟩
  intro c hc
  have h1 : ∀ x ∈ replaceAllCh serviceName '/' '-', x ≠ '/' :=
    replaceAllCh_killed (by decide)
  have h2 : ∀ x ∈ replaceAllCh (replaceAllCh serviceName '/' '-') ':' '-', x ≠ '/' :=
    replaceAllCh_pres h1 (by decide)
  have h2b : ∀ x ∈ replaceAllCh (replaceAllCh serviceName '/' '-') ':' '-', x ≠ ':' :=
    replaceAllCh_killed (by decide)
  exact ⟨replaceAllCh_pres h2 (by decide) c hc,
    replaceAllCh_pres h2b (by decide) c hc,
    replaceAllCh_killed (by decide) c hc⟩

/-- C7, witness: the amended statement at the service name `"a/b:c.d"`. -/
theorem c7_branch_name_witness :
    '/' ∉ sanitizeBranchName "a/b:c.d".toList ∧
    generateBranchName "20250101-120000".toList "a/b:c.d".toList =
      "img-upgr/".toList ++ sanitizeBranchName "a/b:c.d".toList ++
        '-' :: "20250101-120000".toList :=
  ⟨fun hmem =>
      ((c7_branch_name_amended "20250101-120000".toList "a/b:c.d".toList).2.1
        '/' hmem).1 rfl,
    (c7_branch_name_amended "20250101-120000".toList "a/b:c.d".toList).1⟩

/-! ## Claim C8: per-candidate failure isolation -/

/-- C8, counterexample (scenario D shape): with the push of service `"db"`
failing, the check command's loop does `continue` to `"cache"`, but the
failure is logged as `"Error committing changes: remote rejected"` — a
line that does not contain the candidate's service name `"db"`, contrary
to the claim that every stage failure is logged with the service name. -/
theorem c8_failure_isolation_counterexample :
    createMergeRequestsForUpdates okExceptDbPush errOfW [updateDb, updateCache] =
      ["Error committing changes: remote rejected".toList,
       "Created merge request successfully for cache".toList] ∧
    processOneUpdate okExceptDbPush updateDb = .failed .commitPush ∧
    ¬ (updateDb.serviceName <:+:
        "Error committing changes: remote rejected".toList) := by decide

/-- C8, amended: in both merge-request loops a failure at any stage for one
candidate is logged and processing continues with the next candidate —
every candidate of the batch yields exactly one terminal log line, so no
single candidate's failure aborts the batch.  The scan command's failure
line (`Failed to create merge request for <service>: ...`) carries the
candidate's service name; the check command's stage-failure lines carry
only the underlying error (and the file path for read/write failures),
naming the service only on success. -/
theorem c8_failure_isolation_amended :
    (∀ (ok : UpdateInfo → Stage → Bool) (errOf : UpdateInfo → Stage → Str)
        (updates : List UpdateInfo),
      (createMergeRequestsForUpdates ok errOf updates =
        updates.map (checkCmdIterationLog ok errOf)) ∧
      ∀ u us, createMergeRequestsForUpdates ok errOf (u :: us) =
        checkCmdIterationLog ok errOf u :: createMergeRequestsForUpdates ok errOf us) ∧
    (∀ (ok : UpdateInfo → Stage → Bool) (errOf : UpdateInfo → Stage → Str)
        (u : UpdateInfo) (s : Stage), processOneUpdate ok u = .failed s →
      checkCmdIterationLog ok errOf u = checkCmdErrorLog u s (errOf u s)) ∧
    (∀ (ok : UpdatedImage → ScanStage → Bool) (errOf : UpdatedImage → ScanStage → Str)
        (updates : List UpdatedImage),
      (createMergeRequests ok errOf updates =
        updates.map (scanCmdIterationLog ok errOf)) ∧
      ∀ u us, createMergeRequests ok errOf (u :: us) =
        scanCmdIterationLog ok errOf u :: createMergeRequests ok errOf us) ∧
    (∀ (ok : UpdatedImage → ScanStage → Bool) (errOf : UpdatedImage → ScanStage → Str)
        (u : UpdatedImage) (s : ScanStage), createMergeRequestForUpdate ok u = some s →
      scanCmdIterationLog ok errOf u = "Failed to create merge request for ".toList
        ++ u.serviceName ++ ": ".toList ++ scanStageErrText s (errOf u s) ∧
      u.serviceName <:+: scanCmdIterationLog ok errOf u) := by
  refine ⟨?_, ?_, ?_, ?_⟩
  · intro ok errOf updates
    refine ⟨?_, fun u us => rfl⟩
    induction updates with
    | nil => rfl
    | cons u us ih => simp [createMergeRequestsForUpdates, ih]
  · intro ok errOf u s h
    unfold checkCmdIterationLog
    rw [h]
  · intro ok errOf updates
    refine ⟨?_, fun u us => rfl⟩
    induction updates with
    | nil => rfl
    | cons u us ih => simp [createMergeRequests, ih]
  · intro ok errOf u s h
    have heq : scanCmdIterationLog ok errOf u = "Failed to create merge request for ".toList
        ++ u.serviceName ++ ": ".toList ++ scanStageErrText s (errOf u s) := by
      unfold scanCmdIterationLog
      rw [h]
    refine ⟨heq, ?_⟩
    rw [heq]
    exact ⟨"Failed to create merge request for ".toList,
      ": ".toList ++ scanStageErrText s (errOf u s), (List.append_assoc _ _ _).symm⟩

/-- C8, witness: the check command's failing `"db"` push produces the bare
stage-error line, while the scan command's failure line for the same
scenario contains the service name. -/
theorem c8_failure_isolation_witness :
    checkCmdIterationLog okExceptDbPush errOfW updateDb =
      checkCmdErrorLog updateDb .commitPush (errOfW updateDb .commitPush) ∧
    scanUpdateDb.serviceName <:+:
      scanCmdIterationLog scanOkFailPush scanErrOfW scanUpdateDb :=
  ⟨c8_failure_isolation_amended.2.1 okExceptDbPush errOfW updateDb .commitPush (by decide),
    (c8_failure_isolation_amended.2.2.2 scanOkFailPush scanErrOfW scanUpdateDb .commitPush
      (by decide)).2⟩

/-! ## Claim C9: GitLab validation is gated on CreateMR -/

/-- C9: `ValidateGitLab` reports no error whenever `CreateMR` is false, even
with every GitLab field empty and whatever the URL check would say; both
the required-variables check and the URL check run only when `CreateMR` is
true — with it true and all four fields empty, validation does fail. -/
theorem c9_validate_gitlab : ∀ (urlErr : Str → Option Str) (c : Config),
    (c.createMR = false → validateGitLab urlErr c = []) ∧
    validateGitLab urlErr { createMR := true, gitLabUser := [], gitLabToken := [],
                            gitLabRepo := [], gitLabEmail := [] } ≠ [] := by
  intro urlErr c
  constructor
  · intro h
    unfold validateGitLab
    rw [h]
    rfl
  · unfold validateGitLab
    cases hue : urlErr ([] : Str) with
    | none => simp [getMissingVars, hue]
    | some m => simp [getMissingVars, hue]

/-- C9, witness: an empty configuration with `CreateMR` false passes
GitLab validation even under a URL check that rejects everything. -/
theorem c9_validate_gitlab_witness :
    validateGitLab (fun _ => some "bad".toList)
      { createMR := false, gitLabUser := [], gitLabToken := [], gitLabRepo := [],
        gitLabEmail := [] } = [] :=
  (c9_validate_gitlab (fun _ => some "bad".toList)
    { createMR := false, gitLabUser := [], gitLabToken := [], gitLabRepo := [],
      gitLabEmail := [] }).1 rfl

/-! ## Claim C10: repository-name normalization -/

theorem stripTag_no_colon {repo : Str} (h : ':' ∉ repo) : stripTag repo = repo := by
  unfold stripTag
  have htw : repo.takeWhile (fun c => c ≠ ':') = repo :=
    List.takeWhile_eq_self_iff.2 fun x hx => decide_eq_true fun he => h (he ▸ hx)
  rw [htw]
  simp

theorem splitOn_no_slash {repo : Str} (h : '/' ∉ repo) : repo.splitOn '/' = [repo] := by
  show repo.splitOnP (· == '/') = [repo]
  apply List.splitOnP_eq_single
  intro x hx
  simp only [beq_iff_eq]
  exact fun he => h (he ▸ hx)

/-- C10: for a repository string with two or more `/`-separated segments,
`ParseRepositoryName` keeps only the first segment as `Namespace` and the
second as `Name` — so the tag-list URL uses only those two path segments —
while `FullName` retains the whole string; a bare name with no slash is
namespaced under `library`. -/
theorem c10_repository_name :
    (∀ (repo a b : Str) (l : List Str) (ps : Nat),
      ':' ∉ repo → repo.splitOn '/' = a :: b :: l →
      parseRepositoryName repo = { nameSpace := a, name := b, fullName := repo } ∧
      buildTagsURL repo ps = dockerHubAPIBaseURL ++ '/' :: a ++ '/' :: b
        ++ "/tags?page_size=".toList ++ natToStr ps) ∧
    (∀ repo : Str, ':' ∉ repo → '/' ∉ repo →
      parseRepositoryName repo = { nameSpace := "library".toList, name := repo,
                                   fullName := "library/".toList ++ repo }) := by
  constructor
  · intro repo a b l ps hc hsplit
    have hparse : parseRepositoryName repo =
        { nameSpace := a, name := b, fullName := repo } := by
      simp only [parseRepositoryName, stripTag_no_colon hc, hsplit]
      rfl
    refine ⟨hparse, ?_⟩
    simp only [buildTagsURL, hparse]
  · intro repo hc hs
    simp only [parseRepositoryName, stripTag_no_colon hc, splitOn_no_slash hs]

/-- C10, witness: `registry.example.com/team/app` keeps only the first two
segments in the URL, and `nginx` is namespaced under `library`. -/
theorem c10_repository_name_witness :
    (parseRepositoryName "registry.example.com/team/app".toList =
      { nameSpace := "registry.example.com".toList, name := "team".toList,
        fullName := "registry.example.com/team/app".toList } ∧
     buildTagsURL "registry.example.com/team/app".toList 100 =
       dockerHubAPIBaseURL ++ '/' :: "registry.example.com".toList ++
         '/' :: "team".toList ++ "/tags?page_size=".toList ++ natToStr 100) ∧
    parseRepositoryName "nginx".toList =
      { nameSpace := "library".toList, name := "nginx".toList,
        fullName := "library/".toList ++ "nginx".toList } :=
  ⟨c10_repository_name.1 "registry.example.com/team/app".toList
      "registry.example.com".toList "team".toList ["app".toList] 100
      (by decide) (by decide),
    c10_repository_name.2 "nginx".toList (by decide) (by decide)⟩

end ImgUpgr
